import Mathlib

/-!
Shallow embedding of `src/riscos/contextmangler.py` (RISC OS context
mangling) together with the registry in the same file and the behaviour
exercised by `src/test_contextmangler.py`.

Python integers are unbounded, so offsets and context values are `Int`.
Python bitwise operators on `int` use twos-complement semantics on
unbounded integers, which is exactly the semantics of `Int.land`,
`Int.lor`, `Int.xor` and of the `<<<` / `>>>` instances on `Int`.
The Python expressions `a % b` and `int(a / b)` are modelled by
`Int.fmod` (remainder with the sign of the divisor) and `Int.tdiv`
(quotient truncated towards zero); `int(a / b)` in the source goes
through float division, which is exact at every magnitude any claim
touches. Exceptions raised by the source are modelled with `Except`.
-/

deriving instance DecidableEq for Except

/-- Python `str.lower()` on the ASCII scheme names used by the registry
(maps each character through `Char.toLower`). -/
def pyLower (s : String) : String := ⟨s.data.map Char.toLower⟩

/-- Code-point comparison of character lists, as Python compares strings. -/
def charsLe : List Char → List Char → Bool
  | [], _ => true
  | _ :: _, [] => false
  | a :: as, b :: bs =>
    if a.toNat < b.toNat then true
    else if a.toNat = b.toNat then charsLe as bs
    else false

/-- Python string ordering (lexicographic on code points). -/
def pyStrLe (a b : String) : Bool := charsLe a.data b.data

/-- Stable insertion of `x` into an already sorted list: `x` goes in front
of the first element not strictly below it. -/
def pyInsert (le : α → α → Bool) (x : α) : List α → List α
  | [] => [x]
  | y :: ys => if le x y then x :: y :: ys else y :: pyInsert le x ys

/-- Python `sorted` (stable sort) on a list, given a boolean ordering. -/
def pySorted (le : α → α → Bool) (l : List α) : List α :=
  l.foldr (pyInsert le) []

/-- ValueError raised by an `unmangle` that rejects a context value. -/
inductive MError
  | invalidContext
deriving DecidableEq

/-- ValueError raised by `find_context_mangler` for an unknown name
(carries the requested name). -/
inductive RegError
  | unknownScheme (name : String)
deriving DecidableEq

/-- ConfigurationError raised by `ContextManglerName` (carries the
rejected value and the joined list of known names). -/
inductive ConfigError
  | configurationInvalid (value : String) (known : String)
deriving DecidableEq

/-- The six concrete mangler classes registered by the module. -/
inductive SchemeKind
  | identity
  | biased
  | eor
  | reverse
  | descending
  | multiplier
deriving DecidableEq

/-- Python `__name__` of each mangler class. `register_context_mangler`
also assigns this full class name to the `name` attribute of the class,
so it is the key used by `list_context_manglers` for sorting. -/
def className : SchemeKind → String
  | .identity => "ContextManglerIdentity"
  | .biased => "ContextManglerBiased"
  | .eor => "ContextManglerEOR"
  | .reverse => "ContextManglerReverse"
  | .descending => "ContextManglerDescending"
  | .multiplier => "ContextManglerMultiplier"

/-- Python dict assignment `d[key] = v`: replaces in place if the key is
present, otherwise appends (insertion order is preserved, as in dicts). -/
def dictInsert (d : List (String × SchemeKind)) (key : String) (v : SchemeKind) :
    List (String × SchemeKind) :=
  if (d.lookup key).isSome then d.map (fun p => if p.1 = key then (key, v) else p)
  else d ++ [(key, v)]

/-- Registration of one mangler class: all six classes leave the class
attribute `name` unset (`None`), so the key is derived from the class
name with the `ContextMangler` prefix stripped, then lowercased. -/
def register_context_mangler (d : List (String × SchemeKind)) (k : SchemeKind) :
    List (String × SchemeKind) :=
  let name := className k
  let name := if name.take 14 = "ContextMangler" then name.drop 14 else name
  dictInsert d (pyLower name) k

/-- The module-level `manglers` dict, built by the six decorator
registrations in source order. -/
def manglers : List (String × SchemeKind) :=
  [SchemeKind.identity, SchemeKind.biased, SchemeKind.eor,
   SchemeKind.reverse, SchemeKind.descending, SchemeKind.multiplier].foldl
    register_context_mangler []

/-- Function `find_context_mangler`: case-insensitive lookup, ValueError
when the name is unknown. -/
def find_context_mangler (name : String) : Except RegError SchemeKind :=
  match manglers.lookup (pyLower name) with
  | some m => Except.ok m
  | none => Except.error (RegError.unknownScheme name)

/-- Function `list_context_manglers`: the dict values sorted by the
`name` attribute, which registration set to the full class name. -/
def list_context_manglers : List SchemeKind :=
  pySorted (fun a b => pyStrLe (className a) (className b)) (manglers.map Prod.snd)

/-- Function `ContextManglerName`: configuration validator. Note that it
tests `value in manglers` against the lowercase keys without lowering
`value` first. The error carries `", ".join(sorted(manglers))`. -/
def ContextManglerName (value : String) : Except ConfigError String :=
  if (manglers.lookup value).isSome then Except.ok value
  else Except.error (ConfigError.configurationInvalid value
    (String.intercalate ", " (pySorted pyStrLe (manglers.map Prod.fst))))

/-- ContextManglerIdentity.mangle. -/
def identity_mangle (offset : Int) : Int := offset

/-- ContextManglerIdentity.unmangle. -/
def identity_unmangle (context : Int) : Except MError Int := Except.ok context

/-- Default `base` of ContextManglerBiased. -/
def biased_base : Int := 0x76543

/-- ContextManglerBiased.mangle. -/
def biased_mangle (base offset : Int) : Int := offset + base

/-- ContextManglerBiased.unmangle: rejects a context strictly between 0
and the base. -/
def biased_unmangle (base context : Int) : Except MError Int :=
  if context > 0 ∧ context < base then Except.error MError.invalidContext
  else Except.ok (context - base)

/-- Default `eor` of ContextManglerEOR. -/
def eor_eor : Int := 0x76543

/-- ContextManglerEOR.mangle. -/
def eor_mangle (eor offset : Int) : Int := 1 + Int.xor offset eor

/-- ContextManglerEOR.unmangle. -/
def eor_unmangle (eor context : Int) : Except MError Int :=
  Except.ok (Int.xor (context - 1) eor)

/-- Default `nbits` of ContextManglerReverse. -/
def reverse_nbits : Nat := 17

/-- The `for n in range(nbits)` loop of ContextManglerReverse.mangle:
each pass shifts the accumulated value left, copies in the low bit of
`offset` when set (`if offset & 1: value |= 1`), and shifts `offset`
right. -/
def reverse_loop : Nat → Int → Int → Int × Int
  | 0, value, offset => (value, offset)
  | n + 1, value, offset =>
    let value := value <<< (1 : Int)
    let value := if Int.land offset 1 ≠ 0 then Int.lor value 1 else value
    reverse_loop n value (offset >>> (1 : Int))

/-- ContextManglerReverse.mangle: reverse the low `nbits` bits, keep the
bits above them (`value | (offset << nbits)` after the loop). -/
def reverse_mangle (nbits : Nat) (offset : Int) : Int :=
  let p := reverse_loop nbits 0 offset
  Int.lor p.1 (p.2 <<< (nbits : Int))

/-- ContextManglerReverse.unmangle: the same operation in both
directions. -/
def reverse_unmangle (nbits : Nat) (context : Int) : Except MError Int :=
  Except.ok (reverse_mangle nbits context)

/-- Default `limit` of ContextManglerDescending. -/
def descending_limit : Int := 0x76543

/-- ContextManglerDescending.mangle. -/
def descending_mangle (limit offset : Int) : Int :=
  let low := Int.fmod offset limit
  let high := (Int.tdiv offset limit) * limit
  let low := limit - low
  low + high + 1

/-- ContextManglerDescending.unmangle. -/
def descending_unmangle (limit context : Int) : Except MError Int :=
  let context := context - 1
  let low := Int.fmod context limit
  let high := (Int.tdiv context limit) * limit
  let low := limit - low
  Except.ok (low + high)

/-- Default `bias` of ContextManglerMultiplier. -/
def multiplier_bias : Int := 0x3800000

/-- Default `multiplier` of ContextManglerMultiplier. -/
def multiplier_multiplier : Int := 24

/-- ContextManglerMultiplier.mangle. -/
def multiplier_mangle (multiplier bias offset : Int) : Int :=
  bias + offset * multiplier

/-- ContextManglerMultiplier.unmangle: rejects a context whose distance
from the bias is negative or not a multiple of the multiplier. -/
def multiplier_unmangle (multiplier bias context : Int) : Except MError Int :=
  let context := context - bias
  if context < 0 ∨ Int.fmod context multiplier ≠ 0 then
    Except.error MError.invalidContext
  else Except.ok (Int.tdiv context multiplier)

/-- One mangling scheme as the instance layer sees it: the pair of
methods supplied by the concrete subclass. -/
structure Scheme where
  mangle : Int → Int
  unmangle : Int → Except MError Int

/-- Each registered scheme instantiated with its default parameters. -/
def defaultScheme : SchemeKind → Scheme
  | .identity => { mangle := identity_mangle, unmangle := identity_unmangle }
  | .biased => { mangle := biased_mangle biased_base,
                 unmangle := biased_unmangle biased_base }
  | .eor => { mangle := eor_mangle eor_eor, unmangle := eor_unmangle eor_eor }
  | .reverse => { mangle := reverse_mangle reverse_nbits,
                  unmangle := reverse_unmangle reverse_nbits }
  | .descending => { mangle := descending_mangle descending_limit,
                     unmangle := descending_unmangle descending_limit }
  | .multiplier => { mangle := multiplier_mangle multiplier_multiplier multiplier_bias,
                     unmangle := multiplier_unmangle multiplier_multiplier multiplier_bias }

/-- State of a mangler instance: the `offset` attribute set by
`ContextManglerBase.__init__` and mutated in place afterwards. -/
structure ContextManglerBase where
  offset : Int
deriving DecidableEq

/-- ContextManglerBase.__init__: sentinel handling, unsigned 32-bit
normalisation of other negative values, then dispatch to the scheme
`unmangle` (whose ValueError propagates). -/
def ContextManglerBase.init (unmangle : Int → Except MError Int) (context : Int) :
    Except MError ContextManglerBase :=
  if context = 0 then Except.ok ⟨0⟩
  else if context = -1 ∨ context = 0xFFFFFFFF then Except.ok ⟨-1⟩
  else
    let context := if context < 0 then context + ((1 : Int) <<< (32 : Int)) else context
    match unmangle context with
    | Except.ok off => Except.ok ⟨off⟩
    | Except.error e => Except.error e

/-- ContextManglerBase.__iadd__ (`context += value`): a no-op in the
terminal state, otherwise adds to the offset with no validation. -/
def ContextManglerBase.iadd (self : ContextManglerBase) (value : Int) :
    ContextManglerBase :=
  if self.offset = -1 then self else ⟨self.offset + value⟩

/-- ContextManglerBase.finish: unconditional transition to the terminal
state. -/
def ContextManglerBase.finish (self : ContextManglerBase) : ContextManglerBase :=
  ⟨-1⟩

/-- The `opaque` property of ContextManglerBase: 0 and -1 are returned
unchanged, every other offset goes through the scheme `mangle`. -/
def ContextManglerBase.opaqueValue (mangle : Int → Int) (self : ContextManglerBase) :
    Int :=
  if self.offset = 0 ∨ self.offset = -1 then self.offset else mangle self.offset

/-- One pass of `test_contextmangler.test` at a given step number: the
offset must equal the step, a fresh instance built from the current
`opaque` value must carry the same offset, and the instance is advanced
by 1 for the next pass. -/
def testSteps (s : Scheme) : Nat → Nat → ContextManglerBase → Bool
  | 0, _, _ => true
  | fuel + 1, step, c =>
    (c.offset == (step : Int)) &&
    (match ContextManglerBase.init s.unmangle (ContextManglerBase.opaqueValue s.mangle c) with
     | Except.ok c2 => c2.offset == c.offset
     | Except.error _ => false) &&
    testSteps s fuel (step + 1) (ContextManglerBase.iadd c 1)

/-- The manual smoke test of `src/test_contextmangler.py` for one
scheme: start from opaque value 0 and run eight passes. -/
def smokeTest (s : Scheme) : Bool :=
  match ContextManglerBase.init s.unmangle 0 with
  | Except.ok c => testSteps s 8 0 c
  | Except.error _ => false

/-- An operation a caller can perform on a live instance. -/
inductive MOp
  | advance (delta : Int)
  | finish
deriving DecidableEq

/-- Apply one operation to an instance. -/
def applyOp (c : ContextManglerBase) : MOp → ContextManglerBase
  | MOp.advance d => ContextManglerBase.iadd c d
  | MOp.finish => ContextManglerBase.finish c

/-- Apply a sequence of operations to an instance, first one first. -/
def applyOps (c : ContextManglerBase) (ops : List MOp) : ContextManglerBase :=
  ops.foldl applyOp c

/-- Arithmetic restatement of one pass of the reversal loop on natural
numbers: the accumulator doubles and takes in the low bit of the
offset, the offset halves. Used to reason about `reverse_loop`. -/
def natRevLoop : Nat → Nat → Nat → Nat × Nat
  | 0, value, offset => (value, offset)
  | n + 1, value, offset => natRevLoop n (2 * value + offset % 2) (offset / 2)

/-- Reversal of the low `n` bits of a natural number. -/
def natRev (n o : Nat) : Nat := (natRevLoop n 0 o).1

theorem natRevLoop_snd (n : Nat) : ∀ v o : Nat, (natRevLoop n v o).2 = o / 2 ^ n := by
  induction n with
  | zero => intro v o; simp [natRevLoop]
  | succ n ih =>
    intro v o
    rw [natRevLoop, ih, Nat.div_div_eq_div_mul]
    congr 1
    rw [pow_succ]
    ring

theorem natRevLoop_fst (n : Nat) :
    ∀ v o : Nat, (natRevLoop n v o).1 = v * 2 ^ n + (natRevLoop n 0 o).1 := by
  induction n with
  | zero => intro v o; simp [natRevLoop]
  | succ n ih =>
    intro v o
    rw [natRevLoop, natRevLoop, ih (2 * v + o % 2) (o / 2), ih (2 * 0 + o % 2) (o / 2)]
    ring

theorem natRevLoop_fst_lt (n : Nat) : ∀ v o : Nat, (natRevLoop n v o).1 < (v + 1) * 2 ^ n := by
  induction n with
  | zero => intro v o; simp [natRevLoop]
  | succ n ih =>
    intro v o
    rw [natRevLoop]
    refine lt_of_lt_of_le (ih (2 * v + o % 2) (o / 2)) ?_
    have h2 : o % 2 < 2 := Nat.mod_lt o (by norm_num)
    calc (2 * v + o % 2 + 1) * 2 ^ n ≤ (2 * (v + 1)) * 2 ^ n := by
          exact Nat.mul_le_mul_right _ (by omega)
      _ = (v + 1) * 2 ^ (n + 1) := by ring

theorem natRev_lt (n o : Nat) : natRev n o < 2 ^ n := by
  have h := natRevLoop_fst_lt n 0 o
  simpa [natRev] using h

theorem natRev_succ (n o : Nat) : natRev (n + 1) o = (o % 2) * 2 ^ n + natRev n (o / 2) := by
  have h : natRevLoop (n + 1) 0 o = natRevLoop n (2 * 0 + o % 2) (o / 2) := rfl
  unfold natRev
  rw [h, natRevLoop_fst n (2 * 0 + o % 2) (o / 2)]
  ring_nf

theorem natRev_mod (n : Nat) : ∀ o : Nat, natRev n (o % 2 ^ n) = natRev n o := by
  induction n with
  | zero => intro o; simp [natRev, natRevLoop]
  | succ n ih =>
    intro o
    have hdvd : (2 : Nat) ∣ 2 ^ (n + 1) := ⟨2 ^ n, by ring⟩
    have hmod : o % 2 ^ (n + 1) % 2 = o % 2 := Nat.mod_mod_of_dvd o hdvd
    have hdiv : o % 2 ^ (n + 1) / 2 = o / 2 % 2 ^ n := by
      have h21 : (2 : Nat) ^ (n + 1) = 2 * 2 ^ n := by ring
      rw [h21, Nat.mod_mul_right_div_self]
    rw [natRev_succ, natRev_succ, hmod, hdiv, ih (o / 2)]

theorem natRev_succ_top (n : Nat) :
    ∀ o : Nat, o < 2 ^ (n + 1) → natRev (n + 1) o = 2 * natRev n (o % 2 ^ n) + o / 2 ^ n := by
  induction n with
  | zero =>
    intro o h
    rw [natRev_succ]
    simp [natRev, natRevLoop]
    omega
  | succ n ih =>
    intro o h
    have hhalf : o / 2 < 2 ^ (n + 1) := by
      rw [Nat.div_lt_iff_lt_mul (by norm_num : (0:Nat) < 2)]
      calc o < 2 ^ (n + 2) := h
        _ = 2 ^ (n + 1) * 2 := by ring
    have hdvd : (2 : Nat) ∣ 2 ^ (n + 1) := ⟨2 ^ n, by ring⟩
    have hmod : o % 2 ^ (n + 1) % 2 = o % 2 := Nat.mod_mod_of_dvd o hdvd
    have hdiv : o % 2 ^ (n + 1) / 2 = o / 2 % 2 ^ n := by
      have h21 : (2 : Nat) ^ (n + 1) = 2 * 2 ^ n := by ring
      rw [h21, Nat.mod_mul_right_div_self]
    have hdd : o / 2 / 2 ^ n = o / 2 ^ (n + 1) := by
      rw [Nat.div_div_eq_div_mul]
      congr 1
      rw [pow_succ]
      ring
    rw [natRev_succ, ih (o / 2) hhalf, natRev_succ, hmod, hdiv, hdd]
    ring

theorem natRev_natRev (n : Nat) : ∀ o : Nat, o < 2 ^ n → natRev n (natRev n o) = o := by
  induction n with
  | zero =>
    intro o h
    interval_cases o
    simp [natRev, natRevLoop]
  | succ n ih =>
    intro o h
    have hhalf : o / 2 < 2 ^ n := by
      rw [Nat.div_lt_iff_lt_mul (by norm_num : (0:Nat) < 2)]
      calc o < 2 ^ (n + 1) := h
        _ = 2 ^ n * 2 := by ring
    have hlt : natRev n (o / 2) < 2 ^ n := natRev_lt n (o / 2)
    have hr : natRev (n + 1) o = (o % 2) * 2 ^ n + natRev n (o / 2) := natRev_succ n o
    have hrlt : natRev (n + 1) o < 2 ^ (n + 1) := natRev_lt (n + 1) o
    rw [hr, natRev_succ_top n _ (by rw [← hr]; exact hrlt)]
    have hmod2 : ((o % 2) * 2 ^ n + natRev n (o / 2)) % 2 ^ n = natRev n (o / 2) := by
      rw [Nat.add_comm, Nat.add_mul_mod_self_right, Nat.mod_eq_of_lt hlt]
    have hdiv2 : ((o % 2) * 2 ^ n + natRev n (o / 2)) / 2 ^ n = o % 2 := by
      rw [Nat.add_comm, Nat.add_mul_div_right _ _ (pow_pos (by norm_num) n),
        Nat.div_eq_of_lt hlt]
      omega
    rw [hmod2, hdiv2, ih (o / 2) hhalf]
    omega

theorem mul_pow_lor_eq_add (a b n : Nat) (hb : b < 2 ^ n) :
    (2 ^ n * a) ||| b = 2 ^ n * a + b := by
  apply Nat.eq_of_testBit_eq
  intro i
  rw [Nat.testBit_or, Nat.testBit_mul_pow_two_add a hb]
  by_cases hi : i < n
  · have h0 : (2 ^ n * a).testBit i = false := by
      have h := Nat.testBit_mul_pow_two_add a (pow_pos (by norm_num : (0:Nat) < 2) n) i
      rw [Nat.add_zero] at h
      rw [h, if_pos hi]
      exact Nat.zero_testBit i
    simp [h0, if_pos hi]
  · have hbf : b.testBit i = false := by
      refine Nat.testBit_lt_two_pow (lt_of_lt_of_le hb ?_)
      exact Nat.pow_le_pow_right (by norm_num) (le_of_not_lt hi)
    have h1 : (2 ^ n * a).testBit i = a.testBit (i - n) := by
      have h := Nat.testBit_mul_pow_two_add a (pow_pos (by norm_num : (0:Nat) < 2) n) i
      rw [Nat.add_zero] at h
      rw [h, if_neg hi]
    simp [h1, hbf, if_neg hi]

theorem two_mul_lor_one (v : Nat) : (2 * v) ||| 1 = 2 * v + 1 := by
  have h := mul_pow_lor_eq_add v 1 1 (by norm_num)
  simpa [pow_one] using h

theorem int_lor_coe (m e : Nat) : Int.lor (m : Int) (e : Int) = ((m ||| e : Nat) : Int) := rfl

theorem int_land_coe (m e : Nat) : Int.land (m : Int) (e : Int) = ((m &&& e : Nat) : Int) := rfl

theorem int_xor_coe (m e : Nat) : Int.xor (m : Int) (e : Int) = ((m ^^^ e : Nat) : Int) := rfl

theorem reverse_loop_coe (f : Nat) : ∀ v o : Nat,
    reverse_loop f (v : Int) (o : Int) =
      (((natRevLoop f v o).1 : Int), ((natRevLoop f v o).2 : Int)) := by
  induction f with
  | zero => intro v o; rfl
  | succ n ih =>
    intro v o
    have hstep : reverse_loop (n + 1) (v : Int) (o : Int) =
        reverse_loop n
          (if Int.land (o : Int) 1 ≠ 0 then Int.lor (((v : Int)) <<< (1 : Int)) 1
           else ((v : Int)) <<< (1 : Int))
          (((o : Int)) >>> (1 : Int)) := rfl
    have hstep2 : natRevLoop (n + 1) v o = natRevLoop n (2 * v + o % 2) (o / 2) := rfl
    have hshl : ((v : Int)) <<< (1 : Int) = ((2 * v : Nat) : Int) := by
      have h := Int.shiftLeft_coe_nat v 1
      rw [Nat.cast_one] at h
      rw [h]
      congr 1
    have hshr : ((o : Int)) >>> (1 : Int) = ((o / 2 : Nat) : Int) := by
      have h := Int.shiftRight_coe_nat o 1
      rw [Nat.cast_one] at h
      rw [h]
      congr 1
    have hland : Int.land (o : Int) 1 = ((o % 2 : Nat) : Int) := by
      have h : Int.land (o : Int) 1 = ((o &&& 1 : Nat) : Int) := rfl
      rw [h, Nat.and_one_is_mod]
    rw [hstep, hstep2, hshl, hshr, hland]
    rcases Nat.mod_two_eq_zero_or_one o with h2 | h2
    · rw [h2]
      have hcond : ¬ (((0 : Nat) : Int) ≠ 0) := by simp
      rw [if_neg hcond, ih (2 * v) (o / 2)]
      have harg : 2 * v + 0 = 2 * v := by omega
      rw [harg]
    · rw [h2]
      have hcond : ((1 : Nat) : Int) ≠ 0 := by simp
      rw [if_pos hcond]
      have hlor : Int.lor ((2 * v : Nat) : Int) 1 = ((2 * v + 1 : Nat) : Int) := by
        have h : Int.lor ((2 * v : Nat) : Int) 1 = ((2 * v ||| 1 : Nat) : Int) := rfl
        rw [h, two_mul_lor_one]
      rw [hlor, ih (2 * v + 1) (o / 2)]

theorem reverse_mangle_coe (nbits o : Nat) :
    reverse_mangle nbits (o : Int) =
      ((2 ^ nbits * (o / 2 ^ nbits) + natRev nbits o : Nat) : Int) := by
  have h0 : ((0 : Nat) : Int) = (0 : Int) := rfl
  have h := reverse_loop_coe nbits 0 o
  rw [h0] at h
  unfold reverse_mangle
  rw [h]
  have hsnd : (natRevLoop nbits 0 o).2 = o / 2 ^ nbits := natRevLoop_snd nbits 0 o
  have hfst : (natRevLoop nbits 0 o).1 = natRev nbits o := rfl
  rw [hsnd, hfst]
  show Int.lor ((natRev nbits o : Nat) : Int)
      ((((o / 2 ^ nbits : Nat) : Int)) <<< ((nbits : Nat) : Int)) =
    ((2 ^ nbits * (o / 2 ^ nbits) + natRev nbits o : Nat) : Int)
  rw [Int.shiftLeft_coe_nat, int_lor_coe]
  congr 1
  rw [Nat.shiftLeft_eq, Nat.lor_comm, Nat.mul_comm (o / 2 ^ nbits) (2 ^ nbits)]
  exact mul_pow_lor_eq_add (o / 2 ^ nbits) (natRev nbits o) nbits (natRev_lt nbits o)

theorem reverse_mangle_nonneg (nbits : Nat) (c : Int) (h : 0 ≤ c) :
    0 ≤ reverse_mangle nbits c := by
  obtain ⟨m, rfl⟩ := Int.eq_ofNat_of_zero_le h
  rw [reverse_mangle_coe]
  exact Int.natCast_nonneg _

theorem reverse_mangle_invol (nbits : Nat) (c : Int) (h : 0 ≤ c) :
    reverse_mangle nbits (reverse_mangle nbits c) = c := by
  obtain ⟨m, rfl⟩ := Int.eq_ofNat_of_zero_le h
  rw [reverse_mangle_coe, reverse_mangle_coe]
  congr 1
  have hV : natRev nbits m < 2 ^ nbits := natRev_lt nbits m
  have hpos : 0 < 2 ^ nbits := pow_pos (by norm_num) nbits
  have hdiv : (2 ^ nbits * (m / 2 ^ nbits) + natRev nbits m) / 2 ^ nbits = m / 2 ^ nbits := by
    rw [Nat.add_comm, Nat.mul_comm, Nat.add_mul_div_right _ _ hpos, Nat.div_eq_of_lt hV]
    omega
  have hmod : (2 ^ nbits * (m / 2 ^ nbits) + natRev nbits m) % 2 ^ nbits = natRev nbits m := by
    rw [Nat.add_comm, Nat.mul_comm, Nat.add_mul_mod_self_right, Nat.mod_eq_of_lt hV]
  have hrev : natRev nbits (2 ^ nbits * (m / 2 ^ nbits) + natRev nbits m) = m % 2 ^ nbits := by
    rw [← natRev_mod, hmod]
    rw [← natRev_mod nbits m]
    exact natRev_natRev nbits (m % 2 ^ nbits) (Nat.mod_lt m hpos)
  rw [hdiv, hrev, Nat.div_add_mod]

theorem int_xor_nonneg {a b : Int} (ha : 0 ≤ a) (hb : 0 ≤ b) : 0 ≤ Int.xor a b := by
  obtain ⟨m, rfl⟩ := Int.eq_ofNat_of_zero_le ha
  obtain ⟨e, rfl⟩ := Int.eq_ofNat_of_zero_le hb
  rw [int_xor_coe]
  exact Int.natCast_nonneg _

theorem int_xor_cancel {a b : Int} (ha : 0 ≤ a) (hb : 0 ≤ b) :
    Int.xor (Int.xor a b) b = a := by
  obtain ⟨m, rfl⟩ := Int.eq_ofNat_of_zero_le ha
  obtain ⟨e, rfl⟩ := Int.eq_ofNat_of_zero_le hb
  rw [int_xor_coe, int_xor_coe]
  congr 1
  rw [Nat.xor_assoc, Nat.xor_self, Nat.xor_zero]

theorem manglers_eq : manglers =
    [("identity", SchemeKind.identity), ("biased", SchemeKind.biased),
     ("eor", SchemeKind.eor), ("reverse", SchemeKind.reverse),
     ("descending", SchemeKind.descending), ("multiplier", SchemeKind.multiplier)] := by
  decide

theorem lookup_manglers_keys (s : String) (h : (manglers.lookup s).isSome = true) :
    s = "identity" ∨ s = "biased" ∨ s = "eor" ∨ s = "reverse" ∨
      s = "descending" ∨ s = "multiplier" := by
  rw [manglers_eq] at h
  by_cases h1 : s = "identity"
  · exact Or.inl h1
  by_cases h2 : s = "biased"
  · exact Or.inr (Or.inl h2)
  by_cases h3 : s = "eor"
  · exact Or.inr (Or.inr (Or.inl h3))
  by_cases h4 : s = "reverse"
  · exact Or.inr (Or.inr (Or.inr (Or.inl h4)))
  by_cases h5 : s = "descending"
  · exact Or.inr (Or.inr (Or.inr (Or.inr (Or.inl h5))))
  by_cases h6 : s = "multiplier"
  · exact Or.inr (Or.inr (Or.inr (Or.inr (Or.inr h6))))
  have b1 : (s == "identity") = false := beq_eq_false_iff_ne.mpr h1
  have b2 : (s == "biased") = false := beq_eq_false_iff_ne.mpr h2
  have b3 : (s == "eor") = false := beq_eq_false_iff_ne.mpr h3
  have b4 : (s == "reverse") = false := beq_eq_false_iff_ne.mpr h4
  have b5 : (s == "descending") = false := beq_eq_false_iff_ne.mpr h5
  have b6 : (s == "multiplier") = false := beq_eq_false_iff_ne.mpr h6
  simp [List.lookup, b1, b2, b3, b4, b5, b6] at h

theorem unmangle_nonneg (k : SchemeKind) (ctx : Int) (h : 1 ≤ ctx) (off : Int)
    (hok : (defaultScheme k).unmangle ctx = Except.ok off) : 0 ≤ off := by
  cases k with
  | identity =>
    simp only [defaultScheme, identity_unmangle, Except.ok.injEq] at hok
    omega
  | biased =>
    simp only [defaultScheme, biased_unmangle, biased_base] at hok
    split at hok
    · exact absurd hok (by simp)
    · rename_i hcond
      simp only [Except.ok.injEq] at hok
      omega
  | eor =>
    simp only [defaultScheme, eor_unmangle, Except.ok.injEq] at hok
    rw [← hok]
    exact int_xor_nonneg (by omega) (by norm_num [eor_eor])
  | reverse =>
    simp only [defaultScheme, reverse_unmangle, Except.ok.injEq] at hok
    rw [← hok]
    exact reverse_mangle_nonneg _ _ (by omega)
  | descending =>
    simp only [defaultScheme, descending_unmangle, descending_limit, Except.ok.injEq] at hok
    have hf : Int.fmod (ctx - 1) 484675 = Int.emod (ctx - 1) 484675 :=
      Int.fmod_eq_emod _ (by norm_num)
    rw [hf] at hok
    have h1 : 0 ≤ Int.tdiv (ctx - 1) 484675 := Int.tdiv_nonneg (by omega) (by norm_num)
    have h2 : Int.emod (ctx - 1) 484675 < 484675 := Int.emod_lt_of_pos _ (by norm_num)
    have h3 : 0 ≤ Int.emod (ctx - 1) 484675 := Int.emod_nonneg _ (by norm_num)
    omega
  | multiplier =>
    simp only [defaultScheme, multiplier_unmangle, multiplier_bias,
      multiplier_multiplier] at hok
    split at hok
    · exact absurd hok (by simp)
    · rename_i hcond
      push_neg at hcond
      simp only [Except.ok.injEq] at hok
      rw [← hok]
      exact Int.tdiv_nonneg (by omega) (by norm_num)

theorem one_shl_32 : ((1 : Int) <<< (32 : Int)) = 4294967296 := by decide

theorem init_nonsentinel (u : Int → Except MError Int) (v : Int) (h0 : ¬ v = 0)
    (hs : ¬ (v = -1 ∨ v = 0xFFFFFFFF)) :
    ContextManglerBase.init u v =
      match u (if v < 0 then v + ((1 : Int) <<< (32 : Int)) else v) with
      | Except.ok off => Except.ok ⟨off⟩
      | Except.error e => Except.error e := by
  rw [ContextManglerBase.init, if_neg h0, if_neg hs]

theorem init_offset_ok (k : SchemeKind) (v : Int) (hlo : -(4294967296 : Int) < v)
    (hhi : v < 4294967296) (c : ContextManglerBase)
    (hinit : ContextManglerBase.init (defaultScheme k).unmangle v = Except.ok c) :
    0 ≤ c.offset ∨ c.offset = -1 := by
  by_cases h0 : v = 0
  · rw [h0] at hinit
    have hinit0 : ContextManglerBase.init (defaultScheme k).unmangle 0 =
        Except.ok (⟨0⟩ : ContextManglerBase) := rfl
    rw [hinit0] at hinit
    simp only [Except.ok.injEq] at hinit
    subst hinit
    left
    norm_num
  by_cases hs : v = -1 ∨ v = 0xFFFFFFFF
  · rw [ContextManglerBase.init, if_neg h0, if_pos hs] at hinit
    simp only [Except.ok.injEq] at hinit
    subst hinit
    right
    rfl
  rw [init_nonsentinel _ v h0 hs, one_shl_32] at hinit
  have hctx1 : 1 ≤ (if v < 0 then v + 4294967296 else v) := by
    rcases not_or.mp hs with ⟨hs1, hs2⟩
    split <;> omega
  cases hunm : (defaultScheme k).unmangle (if v < 0 then v + 4294967296 else v) with
  | ok off =>
    rw [hunm] at hinit
    simp only [Except.ok.injEq] at hinit
    subst hinit
    left
    exact unmangle_nonneg k _ hctx1 off hunm
  | error e =>
    rw [hunm] at hinit
    exact absurd hinit (by simp)

theorem applyOps_offset_invariant (ops : List MOp) :
    ∀ c : ContextManglerBase, (0 ≤ c.offset ∨ c.offset = -1) →
      (∀ d, MOp.advance d ∈ ops → 0 ≤ d) →
      0 ≤ (applyOps c ops).offset ∨ (applyOps c ops).offset = -1 := by
  induction ops with
  | nil =>
    intro c h _
    simpa [applyOps] using h
  | cons op rest ih =>
    intro c h hops
    have hstep : 0 ≤ (applyOp c op).offset ∨ (applyOp c op).offset = -1 := by
      cases op with
      | advance d =>
        have hd : 0 ≤ d := hops d (List.mem_cons_self _ _)
        have happ : applyOp c (MOp.advance d) = ContextManglerBase.iadd c d := rfl
        rw [happ]
        unfold ContextManglerBase.iadd
        by_cases hterm : c.offset = -1
        · rw [if_pos hterm]
          right
          exact hterm
        · rw [if_neg hterm]
          left
          rcases h with h | h
          · simp only []
            omega
          · exact absurd h hterm
      | finish =>
        right
        rfl
    have hops2 : ∀ d, MOp.advance d ∈ rest → 0 ≤ d := fun d hd =>
      hops d (List.mem_cons_of_mem _ hd)
    have hfold : applyOps c (op :: rest) = applyOps (applyOp c op) rest := rfl
    rw [hfold]
    exact ih (applyOp c op) hstep hops2

/-- C1, counterexample: the round-trip law fails at offset 0 for the
Descending scheme with its default limit: unmangle(mangle(0)) is
2 * 0x76543, not 0 (the instance layer never feeds offset 0 to mangle,
so the smoke test does not see this). -/
theorem round_trip_zero_fails :
    ¬ (∀ (k : SchemeKind) (o : Int), 0 ≤ o → o < 10000 →
        (defaultScheme k).unmangle ((defaultScheme k).mangle o) = Except.ok o) := by
  intro hcl
  have h := hcl SchemeKind.descending 0 (by decide) (by decide)
  exact absurd h (by decide)

/-- C1 (amended): for every one of the six registered schemes with
default parameters and every offset o with 1 <= o < 10000,
unmangle(mangle(o)) = o. (The original claim included o = 0, where the
Descending scheme fails; 0 is handled as a sentinel outside the scheme.) -/
theorem round_trip_default_schemes (k : SchemeKind) (o : Int)
    (h1 : 1 ≤ o) (h2 : o < 10000) :
    (defaultScheme k).unmangle ((defaultScheme k).mangle o) = Except.ok o := by
  cases k with
  | identity => rfl
  | biased =>
    show biased_unmangle biased_base (biased_mangle biased_base o) = Except.ok o
    unfold biased_mangle biased_unmangle biased_base
    rw [if_neg (by omega)]
    congr 1
    omega
  | eor =>
    show eor_unmangle eor_eor (eor_mangle eor_eor o) = Except.ok o
    unfold eor_mangle eor_unmangle
    congr 1
    have hsimp : 1 + Int.xor o eor_eor - 1 = Int.xor o eor_eor := by ring
    rw [hsimp]
    exact int_xor_cancel (by omega) (by norm_num [eor_eor])
  | reverse =>
    show reverse_unmangle reverse_nbits (reverse_mangle reverse_nbits o) = Except.ok o
    unfold reverse_unmangle
    congr 1
    exact reverse_mangle_invol reverse_nbits o (by omega)
  | descending =>
    show descending_unmangle descending_limit (descending_mangle descending_limit o) =
      Except.ok o
    have hman : descending_mangle descending_limit o = 484676 - o := by
      show 484675 - Int.fmod o 484675 + Int.tdiv o 484675 * 484675 + 1 = 484676 - o
      have hflo : Int.fmod o 484675 = o := by
        rw [Int.fmod_eq_emod _ (by norm_num)]
        exact Int.emod_eq_of_lt (by omega) (by omega)
      have hdiv : Int.tdiv o 484675 = 0 := by
        rw [Int.tdiv_eq_ediv (by omega) (by norm_num)]
        exact Int.ediv_eq_zero_of_lt (by omega) (by omega)
      rw [hflo, hdiv]
      ring
    rw [hman]
    show Except.ok (484675 - Int.fmod (484676 - o - 1) 484675 +
        Int.tdiv (484676 - o - 1) 484675 * 484675) = Except.ok o
    have hc : (484676 : Int) - o - 1 = 484675 - o := by ring
    rw [hc]
    have hflo2 : Int.fmod (484675 - o) 484675 = 484675 - o := by
      rw [Int.fmod_eq_emod _ (by norm_num)]
      exact Int.emod_eq_of_lt (by omega) (by omega)
    have hdiv2 : Int.tdiv (484675 - o) 484675 = 0 := by
      rw [Int.tdiv_eq_ediv (by omega) (by norm_num)]
      exact Int.ediv_eq_zero_of_lt (by omega) (by omega)
    rw [hflo2, hdiv2]
    congr 1
    ring
  | multiplier =>
    show multiplier_unmangle multiplier_multiplier multiplier_bias
        (multiplier_mangle multiplier_multiplier multiplier_bias o) = Except.ok o
    show (if (58720256 + o * 24 - 58720256 : Int) < 0 ∨
          Int.fmod (58720256 + o * 24 - 58720256) 24 ≠ 0 then
        Except.error MError.invalidContext
      else Except.ok (Int.tdiv (58720256 + o * 24 - 58720256) 24)) = Except.ok o
    have hc : (58720256 : Int) + o * 24 - 58720256 = o * 24 := by ring
    rw [hc]
    have hmod0 : Int.fmod (o * 24) 24 = 0 := by
      rw [Int.fmod_eq_emod _ (by norm_num)]
      exact Int.mul_emod_left o 24
    have hcond : ¬ ((o * 24 : Int) < 0 ∨ Int.fmod (o * 24) 24 ≠ 0) := by
      push_neg
      exact ⟨by omega, hmod0⟩
    rw [if_neg hcond]
    congr 1
    rw [Int.tdiv_eq_ediv (by omega) (by norm_num)]
    exact Int.mul_ediv_cancel o (by norm_num)

/-- C1 witness: the amended round trip applied at the Descending scheme
and offset 7. -/
theorem round_trip_default_schemes_witness :
    (1 : Int) ≤ 7 ∧ (7 : Int) < 10000 ∧
    (defaultScheme SchemeKind.descending).unmangle
      ((defaultScheme SchemeKind.descending).mangle 7) = Except.ok 7 :=
  ⟨by decide, by decide,
    round_trip_default_schemes SchemeKind.descending 7 (by decide) (by decide)⟩

/-- C2: for any scheme methods whatsoever (hence any scheme and any
parameters), construction from 0 gives offset 0, construction from -1
or 0xFFFFFFFF gives the terminal offset -1, and the opaque property of
those states returns 0 and -1 directly, never calling mangle. -/
theorem sentinel_invariance :
    ∀ (mangle : Int → Int) (unmangle : Int → Except MError Int),
      ContextManglerBase.init unmangle 0 = Except.ok ⟨0⟩ ∧
      ContextManglerBase.init unmangle (-1) = Except.ok ⟨-1⟩ ∧
      ContextManglerBase.init unmangle 0xFFFFFFFF = Except.ok ⟨-1⟩ ∧
      ContextManglerBase.opaqueValue mangle ⟨0⟩ = 0 ∧
      ContextManglerBase.opaqueValue mangle ⟨-1⟩ = -1 :=
  fun _ _ => ⟨rfl, rfl, rfl, rfl, rfl⟩

/-- C3: for each of the six schemes with default parameters, the smoke
test of the repository passes: starting from opaque 0, eight advance(1)
steps produce offsets 0..7, and at each step reconstructing a fresh
instance from the current opaque value reproduces the same offset. -/
theorem advance_consistency (k : SchemeKind) : smokeTest (defaultScheme k) = true := by
  cases k <;> decide

/-- C4: a default Biased mangler constructed from opaque 1 fails with
the invalid-context error, and a default Multiplier mangler constructed
from any opaque value strictly between 0 and 0xFFFFFFFF that is not
congruent to the bias modulo 24 fails with the invalid-context error;
no default offset is produced. -/
theorem invalid_context_rejection :
    ContextManglerBase.init (defaultScheme SchemeKind.biased).unmangle 1 =
      Except.error MError.invalidContext ∧
    ∀ v : Int, 0 < v → v < 0xFFFFFFFF →
      v % 24 ≠ multiplier_bias % 24 →
      ContextManglerBase.init (defaultScheme SchemeKind.multiplier).unmangle v =
        Except.error MError.invalidContext := by
  constructor
  · decide
  · intro v h0 hlt hmod
    have hmod2 : v % 24 ≠ (58720256 : Int) % 24 := by
      simpa [multiplier_bias] using hmod
    have hv0 : ¬ v = 0 := by omega
    have hvs : ¬ (v = -1 ∨ v = 0xFFFFFFFF) := by omega
    rw [init_nonsentinel _ v hv0 hvs, one_shl_32]
    have hpos : ¬ v < 0 := by omega
    rw [if_neg hpos]
    have hunm : multiplier_unmangle multiplier_multiplier multiplier_bias v =
        Except.error MError.invalidContext := by
      show (if (v - 58720256 : Int) < 0 ∨ Int.fmod (v - 58720256) 24 ≠ 0 then
          Except.error MError.invalidContext
        else Except.ok (Int.tdiv (v - 58720256) 24)) = Except.error MError.invalidContext
      by_cases hneg : (v - 58720256 : Int) < 0
      · rw [if_pos (Or.inl hneg)]
      · have hm : Int.fmod (v - 58720256) 24 ≠ 0 := by
          rw [Int.fmod_eq_emod _ (by norm_num)]
          omega
        rw [if_pos (Or.inr hm)]
    show (match multiplier_unmangle multiplier_multiplier multiplier_bias v with
      | Except.ok off => Except.ok (⟨off⟩ : ContextManglerBase)
      | Except.error e => Except.error e) = Except.error MError.invalidContext
    rw [hunm]

/-- C4 witness: the Multiplier rejection applied at opaque value 25
(25 mod 24 = 1, while the bias is congruent to 8 modulo 24). -/
theorem invalid_context_rejection_witness :
    (0 : Int) < 25 ∧ (25 : Int) < 0xFFFFFFFF ∧
    (25 : Int) % 24 ≠ multiplier_bias % 24 ∧
    ContextManglerBase.init (defaultScheme SchemeKind.multiplier).unmangle 25 =
      Except.error MError.invalidContext :=
  ⟨by decide, by decide, by decide,
    invalid_context_rejection.2 25 (by decide) (by decide) (by decide)⟩

/-- C5: once an instance has offset -1 (which is the state produced by
constructing from -1 or 0xFFFFFFFF and by finish), any sequence of
advance calls leaves the offset at -1, and the opaque property keeps
reporting -1, for any scheme methods. -/
theorem terminal_absorption (mangle : Int → Int) (unmangle : Int → Except MError Int)
    (c : ContextManglerBase) (h : c.offset = -1) (deltas : List Int) :
    (deltas.foldl ContextManglerBase.iadd c).offset = -1 ∧
    ContextManglerBase.opaqueValue mangle (deltas.foldl ContextManglerBase.iadd c) = -1 ∧
    ContextManglerBase.init unmangle (-1) = Except.ok ⟨-1⟩ ∧
    ContextManglerBase.init unmangle 0xFFFFFFFF = Except.ok ⟨-1⟩ ∧
    (ContextManglerBase.finish c).offset = -1 := by
  have habs : ∀ (ds : List Int) (x : ContextManglerBase), x.offset = -1 →
      (ds.foldl ContextManglerBase.iadd x).offset = -1 := by
    intro ds
    induction ds with
    | nil => intro x hx; simpa using hx
    | cons d rest ih =>
      intro x hx
      have hstep : ContextManglerBase.iadd x d = x := by
        unfold ContextManglerBase.iadd
        rw [if_pos hx]
      rw [List.foldl_cons, hstep]
      exact ih x hx
  have h1 := habs deltas c h
  refine ⟨h1, ?_, rfl, rfl, rfl⟩
  show (if (deltas.foldl ContextManglerBase.iadd c).offset = 0 ∨
        (deltas.foldl ContextManglerBase.iadd c).offset = -1 then
      (deltas.foldl ContextManglerBase.iadd c).offset
    else mangle (deltas.foldl ContextManglerBase.iadd c).offset) = -1
  rw [if_pos (Or.inr h1)]
  exact h1

/-- C5 witness: terminal absorption applied to the terminal instance
with a concrete scheme and the advance deltas 2, -7, 100. -/
theorem terminal_absorption_witness :
    (([2, -7, 100] : List Int).foldl ContextManglerBase.iadd ⟨-1⟩).offset = -1 ∧
    ContextManglerBase.opaqueValue (fun x => x)
      (([2, -7, 100] : List Int).foldl ContextManglerBase.iadd ⟨-1⟩) = -1 ∧
    ContextManglerBase.init (fun x => Except.ok x) (-1) = Except.ok ⟨-1⟩ ∧
    ContextManglerBase.init (fun x => Except.ok x) 0xFFFFFFFF = Except.ok ⟨-1⟩ ∧
    (ContextManglerBase.finish ⟨-1⟩).offset = -1 :=
  terminal_absorption (fun x => x) (fun x => Except.ok x) ⟨-1⟩ rfl [2, -7, 100]

/-- C6: registry lookup is case-insensitive (find on "IDENTITY" and
"identity" return the same descriptor), an unknown name fails with the
unknown-scheme error, and listing returns exactly the six built-in
descriptors sorted by name. -/
theorem registry_lookup :
    find_context_mangler "IDENTITY" = find_context_mangler "identity" ∧
    find_context_mangler "identity" = Except.ok SchemeKind.identity ∧
    find_context_mangler "nope" = Except.error (RegError.unknownScheme "nope") ∧
    list_context_manglers = [SchemeKind.biased, SchemeKind.descending, SchemeKind.eor,
      SchemeKind.identity, SchemeKind.multiplier, SchemeKind.reverse] :=
  ⟨by decide, by decide, by decide, by decide⟩

set_option maxRecDepth 8000 in
/-- C7, counterexample: the validator is not case-insensitive, unlike
find: it rejects "IDENTITY" with the configuration error (carrying all
known names) even though find accepts "IDENTITY". -/
theorem validator_uppercase_mismatch :
    ContextManglerName "IDENTITY" =
      Except.error (ConfigError.configurationInvalid "IDENTITY"
        "biased, descending, eor, identity, multiplier, reverse") ∧
    find_context_mangler "IDENTITY" = Except.ok SchemeKind.identity :=
  ⟨by decide, by decide⟩

set_option maxRecDepth 8000 in
/-- C7 (amended): the validator returns s unchanged exactly when s is
already lowercase and names a known scheme (i.e. when s is literally
one of the registry keys); otherwise it raises the configuration error
carrying the comma-joined sorted list of all known names. -/
theorem validator_exact_lowercase :
    ∀ s : String,
      (ContextManglerName s = Except.ok s ↔
        (pyLower s = s ∧ (find_context_mangler s).isOk = true)) ∧
      (ContextManglerName s = Except.ok s ∨
        ContextManglerName s = Except.error (ConfigError.configurationInvalid s
          "biased, descending, eor, identity, multiplier, reverse")) := by
  intro s
  have hjoin : String.intercalate ", " (pySorted pyStrLe (manglers.map Prod.fst)) =
      "biased, descending, eor, identity, multiplier, reverse" := by decide
  by_cases hmem : (manglers.lookup s).isSome = true
  · have hok : ContextManglerName s = Except.ok s := by
      unfold ContextManglerName
      rw [if_pos hmem]
    refine ⟨?_, Or.inl hok⟩
    rw [hok]
    simp only [true_iff]
    rcases lookup_manglers_keys s hmem with h | h | h | h | h | h <;> subst h
    · exact ⟨by decide, by decide⟩
    · exact ⟨by decide, by decide⟩
    · exact ⟨by decide, by decide⟩
    · exact ⟨by decide, by decide⟩
    · exact ⟨by decide, by decide⟩
    · exact ⟨by decide, by decide⟩
  · have herr : ContextManglerName s =
        Except.error (ConfigError.configurationInvalid s
          "biased, descending, eor, identity, multiplier, reverse") := by
      unfold ContextManglerName
      rw [if_neg hmem, hjoin]
    constructor
    · rw [herr]
      constructor
      · intro hcontra
        exact absurd hcontra (by simp)
      · rintro ⟨hlow, hfind⟩
        exfalso
        unfold find_context_mangler at hfind
        rw [hlow] at hfind
        cases hl : manglers.lookup s with
        | some m => rw [hl] at hmem; simp at hmem
        | none => rw [hl] at hfind; simp [Except.isOk, Except.toBool] at hfind
    · exact Or.inr herr

/-- C8, counterexample: the offset invariant fails as stated for
arbitrary deltas: a default Identity instance constructed from the
accepted opaque value 0 has offset -2 after one advance(-2) call,
which is neither nonnegative nor the terminal marker -1. -/
theorem offset_negative_after_advance :
    ContextManglerBase.init (defaultScheme SchemeKind.identity).unmangle 0 =
      Except.ok ⟨0⟩ ∧
    (ContextManglerBase.iadd ⟨0⟩ (-2)).offset = -2 ∧
    ¬ (0 ≤ (ContextManglerBase.iadd ⟨0⟩ (-2)).offset ∨
        (ContextManglerBase.iadd ⟨0⟩ (-2)).offset = -1) :=
  ⟨rfl, by decide, by decide⟩

/-- C8 (amended): for every scheme with default parameters, every
starting opaque value inside the 32-bit domain that construction
accepts, and every sequence of advance calls with nonnegative deltas
and finish calls, the offset stays nonnegative or exactly -1. (The
original claim allowed arbitrary integer deltas and arbitrarily large
opaque values, and advance performs no validation, so a negative delta
refutes it.) -/
theorem offset_invariant (k : SchemeKind) (v : Int) (hlo : -(4294967296 : Int) < v)
    (hhi : v < 4294967296) (c : ContextManglerBase)
    (hinit : ContextManglerBase.init (defaultScheme k).unmangle v = Except.ok c)
    (ops : List MOp) (hops : ∀ d, MOp.advance d ∈ ops → 0 ≤ d) :
    0 ≤ (applyOps c ops).offset ∨ (applyOps c ops).offset = -1 :=
  applyOps_offset_invariant ops c (init_offset_ok k v hlo hhi c hinit) hops

/-- C8 witness: the invariant applied to a default Identity instance
built from opaque 5, advanced by 2 and then finished. -/
theorem offset_invariant_witness :
    ContextManglerBase.init (defaultScheme SchemeKind.identity).unmangle 5 =
      Except.ok ⟨5⟩ ∧
    (0 ≤ (applyOps ⟨5⟩ [MOp.advance 2, MOp.finish]).offset ∨
      (applyOps ⟨5⟩ [MOp.advance 2, MOp.finish]).offset = -1) :=
  ⟨by decide,
    offset_invariant SchemeKind.identity 5 (by decide) (by decide) ⟨5⟩ (by decide)
      [MOp.advance 2, MOp.finish] (by
        intro d hd
        simp only [List.mem_cons, List.not_mem_nil, or_false, MOp.advance.injEq] at hd
        rcases hd with hd | hd
        · omega
        · exact absurd hd (by simp))⟩

/-- C9: the BitReverse scheme with the default 17-bit parameter is an
involution on every nonnegative offset, and its unmangle is the
identical operation to its mangle. -/
theorem reverse_involution :
    (∀ o : Int, 0 ≤ o →
      reverse_mangle reverse_nbits (reverse_mangle reverse_nbits o) = o) ∧
    (∀ c : Int, reverse_unmangle reverse_nbits c =
      Except.ok (reverse_mangle reverse_nbits c)) :=
  ⟨fun o ho => reverse_mangle_invol reverse_nbits o ho, fun _ => rfl⟩

/-- C9 witness: the involution applied at offset 12345. -/
theorem reverse_involution_witness :
    (0 : Int) ≤ 12345 ∧
    reverse_mangle reverse_nbits (reverse_mangle reverse_nbits 12345) = 12345 :=
  ⟨by decide, reverse_involution.1 12345 (by decide)⟩

/-- C10: the negative-difference branch of the Multiplier unmangle is
reachable through the public constructor: opaque value 24 lies strictly
between 0 and 0xFFFFFFFF, survives constructor normalisation unchanged
(it is nonnegative), satisfies 24 - bias < 0, and construction raises
the invalid-context error. -/
theorem multiplier_negative_branch_reachable :
    (0 : Int) < 24 ∧ (24 : Int) < 0xFFFFFFFF ∧ (24 : Int) - multiplier_bias < 0 ∧
    ContextManglerBase.init (defaultScheme SchemeKind.multiplier).unmangle 24 =
      Except.error MError.invalidContext :=
  ⟨by decide, by decide, by decide, by decide⟩
